import Mathlib

/-!
# Role-binding engine of the people_detection repository

A shallow embedding of the role-binding assignment engine:
`RoleBindingManager` from `binding_manager.py` (key handling, click
buffering, label generation, nearest-body click assignment) and the
equivalent inline click-assignment block of `body_tracking.py`'s main
loop, together with theorems settling the specification claims.

Floating-point scalars (2D keypoint coordinates and the per-axis image
scale factors) are modelled exactly as dyadic rationals `mant / 2 ^ exp`
(every finite IEEE-754 double has this form, and the product of two
doubles is modelled as the exact product); NaN is a separate
constructor, mirroring the `np.isnan` checks of the source.
-/

/-- A finite floating-point scalar, represented exactly as the dyadic
rational `mant / 2 ^ exp`. -/
structure Dyadic where
  mant : ℤ
  exp : ℕ
deriving DecidableEq, Repr

/-- Exact product of two dyadic scalars (models `x * y` on floats). -/
def Dyadic.mul (a b : Dyadic) : Dyadic :=
  { mant := a.mant * b.mant, exp := a.exp + b.exp }

/-- Truncation toward zero to an integer, as Python's `int(...)` does on
a float. -/
def Dyadic.trunc (a : Dyadic) : ℤ :=
  a.mant.tdiv ((2 : ℤ) ^ a.exp)

/-- A floating-point value as delivered for a keypoint coordinate:
either NaN or a finite value. -/
inductive FVal where
  | nan : FVal
  | val : Dyadic → FVal
deriving DecidableEq, Repr

/-- One tracked body of a frame (`sl.BodyData`): its tracker id and its
optional list of 2D keypoints (`body.keypoint_2d`; `none` models the
Python `None`, and each keypoint is an `(x, y)` pair of floats). -/
structure Body where
  id : ℤ
  keypoint_2d : Option (List (FVal × FVal))
deriving DecidableEq, Repr

/-- The state of `RoleBindingManager` (the dataclass fields of
`binding_manager.py`). The role map is an insertion-ordered association
list, modelling the Python dict. -/
structure RoleBindingManager where
  image_scale : Dyadic × Dyadic
  role_map : List (ℤ × String)
  current_role : Option String
  click_pending : Bool
  click_pos : ℤ × ℤ
  surgeon_count : ℕ
  assistant_count : ℕ
  nurse_count : ℕ
  role_color : List (String × (ℕ × ℕ × ℕ))
deriving DecidableEq, Repr

/-- The freshly constructed manager (`RoleBindingManager(image_scale)`
with the dataclass defaults). -/
def RoleBindingManager.init (scale : Dyadic × Dyadic) : RoleBindingManager :=
  { image_scale := scale
    role_map := []
    current_role := none
    click_pending := false
    click_pos := (0, 0)
    surgeon_count := 0
    assistant_count := 0
    nurse_count := 0
    role_color :=
      [("Surgeon", (0, 0, 255)), ("Assistant", (255, 0, 0)), ("Nurse", (0, 255, 0))] }

/-- `RoleBindingManager.set_current_role_from_key`: maps a key code to a
role selection and returns the status message, if any. Key codes:
`ord s = 115`, `ord a = 97`, `ord n = 110`, ESC `= 27`. (The source
messages put single quotation marks around the role name; they are
elided here.) -/
def set_current_role_from_key (m : RoleBindingManager) (key : ℕ) :
    RoleBindingManager × Option String :=
  if key = 115 then
    ({ m with current_role := some "Surgeon" },
      some "[Role] Current role set to Surgeon. Click on a person to bind.")
  else if key = 97 then
    ({ m with current_role := some "Assistant" },
      some "[Role] Current role set to Assistant. Click on a person to bind.")
  else if key = 110 then
    ({ m with current_role := some "Nurse" },
      some "[Role] Current role set to Nurse. Click on a person to bind.")
  else if key = 27 then
    ({ m with current_role := none }, some "[Role] Binding cancelled.")
  else (m, none)

/-- `RoleBindingManager.register_click`: unconditionally records the
click position and sets the pending flag. -/
def register_click (m : RoleBindingManager) (x y : ℤ) : RoleBindingManager :=
  { m with click_pos := (x, y), click_pending := true }

/-- Decimal digits of `n`, least significant first, computed with
explicit fuel so that it reduces in the kernel (it agrees with
`Nat.digits 10`, see `natDigits_eq_digits`). -/
def natDigitsAux : ℕ → ℕ → List ℕ
  | 0, _ => []
  | _ + 1, 0 => []
  | fuel + 1, n + 1 => ((n + 1) % 10) :: natDigitsAux fuel ((n + 1) / 10)

/-- Decimal digits of `n`, least significant first. -/
def natDigits (n : ℕ) : List ℕ := natDigitsAux n n

/-- Decimal string of a natural number, as Python's f-string formats a
nonnegative int. -/
def natStr (n : ℕ) : String :=
  if n = 0 then "0" else String.mk (((natDigits n).map Nat.digitChar).reverse)

/-- `RoleBindingManager._generate_role_name`: creates the numbered label
for the currently selected role, bumping that role's counter; the
fallback branch (`self.current_role or "Unknown"`) changes nothing. -/
def generate_role_name (m : RoleBindingManager) : RoleBindingManager × String :=
  if m.current_role = some "Surgeon" then
    ({ m with surgeon_count := m.surgeon_count + 1 },
      "Surgeon" ++ "_" ++ natStr (m.surgeon_count + 1))
  else if m.current_role = some "Assistant" then
    ({ m with assistant_count := m.assistant_count + 1 },
      "Assistant" ++ "_" ++ natStr (m.assistant_count + 1))
  else if m.current_role = some "Nurse" then
    ({ m with nurse_count := m.nurse_count + 1 },
      "Nurse" ++ "_" ++ natStr (m.nurse_count + 1))
  else
    (m, match m.current_role with
        | some s => if s = "" then "Unknown" else s
        | none => "Unknown")

/-- The per-body computation of the loop in `try_assign_from_click`:
`none` when the body is skipped (absent or empty `keypoint_2d`, or a NaN
coordinate of the first keypoint), otherwise the squared Euclidean
distance between the click position and the first keypoint scaled to
display coordinates and truncated to integers. -/
def bodyDist2 (sc : Dyadic × Dyadic) (cp : ℤ × ℤ) (body : Body) : Option ℤ :=
  match body.keypoint_2d with
  | none => none
  | some [] => none
  | some (kp :: _) =>
    match kp with
    | (FVal.val x, FVal.val y) =>
      let bx := (x.mul sc.1).trunc
      let bY := (y.mul sc.2).trunc
      let dx := bx - cp.1
      let dy := bY - cp.2
      some (dx * dx + dy * dy)
    | _ => none

/-- One iteration of the best-body loop of `try_assign_from_click`:
fold state is `none` (no candidate yet) or `some (best_body,
best_dist2)`; a strictly smaller distance replaces the candidate. -/
def scanStep (sc : Dyadic × Dyadic) (cp : ℤ × ℤ)
    (best : Option (Body × ℤ)) (body : Body) : Option (Body × ℤ) :=
  match bodyDist2 sc cp body with
  | none => best
  | some dist2 =>
    match best with
    | none => some (body, dist2)
    | some (b, d) => if dist2 < d then some (body, dist2) else some (b, d)

/-- The whole best-body loop of `try_assign_from_click`, over the
frame's body list in iteration order. -/
def chosenBody (sc : Dyadic × Dyadic) (cp : ℤ × ℤ) (bl : List Body) :
    Option (Body × ℤ) :=
  bl.foldl (scanStep sc cp) none

/-- Python dict assignment `m[k] = v` on an insertion-ordered
association list: overwrite in place if the key is present, else append. -/
def mapInsert (m : List (ℤ × String)) (k : ℤ) (v : String) : List (ℤ × String) :=
  if m.any (fun p => p.1 == k) then
    m.map (fun p => if p.1 == k then (k, v) else p)
  else m ++ [(k, v)]

/-- `RoleBindingManager.try_assign_from_click`: resolve a pending click
against the frame's bodies. `bodies = none` models `bodies is None`. -/
def try_assign_from_click (m : RoleBindingManager) (bodies : Option (List Body)) :
    RoleBindingManager :=
  if m.click_pending = false ∨ m.current_role = none then m
  else
    match bodies with
    | none => { m with click_pending := false }
    | some [] => { m with click_pending := false }
    | some body_list =>
      match chosenBody m.image_scale m.click_pos body_list with
      | some (best_body, _) =>
        let gen := generate_role_name m
        { gen.1 with
          role_map := mapInsert gen.1.role_map best_body.id gen.2,
          click_pending := false }
      | none => { m with click_pending := false }

/-- `RoleBindingManager.get_label_and_color`. -/
def get_label_and_color (m : RoleBindingManager) (body_id : ℤ) :
    String × (ℕ × ℕ × ℕ) :=
  let role_text :=
    match (m.role_map.find? (fun p => p.1 == body_id)) with
    | some p => p.2
    | none => "ID:" ++ natStr body_id.toNat
  let color :=
    if List.IsInfix "Surgeon".data role_text.data then (0, 0, 255)
    else if List.IsInfix "Assistant".data role_text.data then (255, 0, 0)
    else if List.IsInfix "Nurse".data role_text.data then (0, 255, 0)
    else (0, 255, 255)
  (role_text, color)

/-- The inline click-assignment block of `body_tracking.py`'s main loop
(lines 381-427), acting on the same state record: guarded by
`click_pending and current_role is not None and len(body_list) > 0`,
then the same best-body search, inline counter bump and label
formatting, dict upsert, and flag clearing. -/
def mainClickBlock (m : RoleBindingManager) (body_list : List Body) :
    RoleBindingManager :=
  if m.click_pending = true ∧ m.current_role ≠ none ∧ 0 < body_list.length then
    match chosenBody m.image_scale m.click_pos body_list with
    | some (best_body, _) =>
      if m.current_role = some "Surgeon" then
        { m with
          surgeon_count := m.surgeon_count + 1,
          role_map := mapInsert m.role_map best_body.id
            ("Surgeon" ++ "_" ++ natStr (m.surgeon_count + 1)),
          click_pending := false }
      else if m.current_role = some "Assistant" then
        { m with
          assistant_count := m.assistant_count + 1,
          role_map := mapInsert m.role_map best_body.id
            ("Assistant" ++ "_" ++ natStr (m.assistant_count + 1)),
          click_pending := false }
      else if m.current_role = some "Nurse" then
        { m with
          nurse_count := m.nurse_count + 1,
          role_map := mapInsert m.role_map best_body.id
            ("Nurse" ++ "_" ++ natStr (m.nurse_count + 1)),
          click_pending := false }
      else
        { m with
          role_map := mapInsert m.role_map best_body.id
            (match m.current_role with
             | some s => s
             | none => "Unknown"),
          click_pending := false }
    | none => { m with click_pending := false }
  else m

/-- One external event handled by the manager: a key press, a mouse
click, or a frame against which a pending click is resolved. -/
inductive Op where
  | key : ℕ → Op
  | click : ℤ → ℤ → Op
  | frame : Option (List Body) → Op

/-- Apply one event to the manager. -/
def step (m : RoleBindingManager) (op : Op) : RoleBindingManager :=
  match op with
  | .key k => (set_current_role_from_key m k).1
  | .click x y => register_click m x y
  | .frame bodies => try_assign_from_click m bodies

/-- Apply a sequence of events to the manager. -/
def run (m : RoleBindingManager) (ops : List Op) : RoleBindingManager :=
  ops.foldl step m

/-- The counter of a role category (0 for a non-category string). -/
def counterOf (m : RoleBindingManager) (c : String) : ℕ :=
  if c = "Surgeon" then m.surgeon_count
  else if c = "Assistant" then m.assistant_count
  else if c = "Nurse" then m.nurse_count
  else 0

/-- A body the best-body loop skips: absent or empty `keypoint_2d`, or a
NaN coordinate in the first keypoint. -/
def invalidBody (b : Body) : Prop :=
  b.keypoint_2d = none ∨ b.keypoint_2d = some [] ∨
    (∃ kp rest, b.keypoint_2d = some (kp :: rest) ∧
      (kp.1 = FVal.nan ∨ kp.2 = FVal.nan))

/-- The role-selection effect of a single key code: `none` for a key
that changes nothing, otherwise the new value of the active role. -/
def keyRole (k : ℕ) : Option (Option String) :=
  if k = 115 then some (some "Surgeon")
  else if k = 97 then some (some "Assistant")
  else if k = 110 then some (some "Nurse")
  else if k = 27 then some none
  else none

/-- Feed a sequence of key codes to the manager. -/
def applyKeys (m : RoleBindingManager) (ks : List ℕ) : RoleBindingManager :=
  ks.foldl (fun m k => (set_current_role_from_key m k).1) m

/-- The effect of the last state-changing key of a sequence, if any. -/
def lastRoleEffect (ks : List ℕ) : Option (Option String) :=
  ks.reverse.findSome? keyRole

/-- Unit scale factors (display resolution equals capture resolution, as
in `body_tracking.py`). -/
def scale1 : Dyadic × Dyadic := (⟨1, 0⟩, ⟨1, 0⟩)

/-- A body with a valid first keypoint at (100, 100). -/
def bodyA : Body := ⟨1, some [(FVal.val ⟨100, 0⟩, FVal.val ⟨100, 0⟩)]⟩

/-- A body with a valid first keypoint at (500, 500). -/
def bodyB : Body := ⟨2, some [(FVal.val ⟨500, 0⟩, FVal.val ⟨500, 0⟩)]⟩

/-- A body whose first keypoint has a NaN x coordinate. -/
def bodyNan : Body := ⟨3, some [(FVal.nan, FVal.val ⟨0, 0⟩)]⟩

/-- A body with an empty keypoint list. -/
def bodyEmptyKp : Body := ⟨4, some []⟩

/-- A body with an absent keypoint array. -/
def bodyNoKp : Body := ⟨5, none⟩

/-- A manager with a click pending at (110, 110) and no role selected. -/
def mgrClickNoRole : RoleBindingManager :=
  { RoleBindingManager.init scale1 with click_pending := true, click_pos := (110, 110) }

/-- A manager with a click pending at (110, 110) and the Surgeon role
selected. -/
def mgrPendingSurgeon : RoleBindingManager :=
  { RoleBindingManager.init scale1 with
    current_role := some "Surgeon", click_pending := true, click_pos := (110, 110) }

/-- C4: when no click is pending or no role category is selected,
`try_assign_from_click` returns immediately and changes nothing — the
whole state (pending flag, click position, role bindings, counters) is
exactly the one before the call, so an unconsumed click stays pending
across repeated calls until a role is chosen. -/
theorem try_assign_noop_when_no_click_or_no_role (m : RoleBindingManager)
    (bodies : Option (List Body))
    (h : m.click_pending = false ∨ m.current_role = none) :
    try_assign_from_click m bodies = m := by
  unfold try_assign_from_click
  rw [if_pos h]

/-- Witness for C4: a click is pending but no role is selected, and the
call leaves the manager untouched. -/
theorem try_assign_noop_when_no_click_or_no_role_witness :
    (mgrClickNoRole.click_pending = false ∨ mgrClickNoRole.current_role = none) ∧
    try_assign_from_click mgrClickNoRole (some [bodyA]) = mgrClickNoRole :=
  ⟨Or.inr rfl,
    try_assign_noop_when_no_click_or_no_role mgrClickNoRole (some [bodyA]) (Or.inr rfl)⟩

/-- C7: `register_click` is last-write-wins — two successive
registrations leave exactly the state of the second one alone, the
pending flag is set and the buffered position is the most recent pair. -/
theorem register_click_last_write_wins (m : RoleBindingManager) (x₁ y₁ x₂ y₂ : ℤ) :
    register_click (register_click m x₁ y₁) x₂ y₂ = register_click m x₂ y₂ ∧
    (register_click m x₂ y₂).click_pending = true ∧
    (register_click m x₂ y₂).click_pos = (x₂, y₂) :=
  ⟨rfl, rfl, rfl⟩

/-- C3: with a click pending, a role selected and an empty body list,
the call clears the pending flag and does nothing else — no binding is
added or changed and no counter moves. -/
theorem try_assign_empty_frame_consumes_click (m : RoleBindingManager)
    (hp : m.click_pending = true) (hr : m.current_role ≠ none) :
    try_assign_from_click m (some []) = { m with click_pending := false } ∧
    (try_assign_from_click m (some [])).role_map = m.role_map ∧
    (try_assign_from_click m (some [])).surgeon_count = m.surgeon_count ∧
    (try_assign_from_click m (some [])).assistant_count = m.assistant_count ∧
    (try_assign_from_click m (some [])).nurse_count = m.nurse_count := by
  have hcond : ¬ (m.click_pending = false ∨ m.current_role = none) := by
    rintro (h | h)
    · rw [hp] at h; exact Bool.noConfusion h
    · exact hr h
  unfold try_assign_from_click
  rw [if_neg hcond]
  exact ⟨rfl, rfl, rfl, rfl, rfl⟩

/-- Witness for C3: Surgeon selected, click pending, empty frame. -/
theorem try_assign_empty_frame_consumes_click_witness :
    mgrPendingSurgeon.click_pending = true ∧ mgrPendingSurgeon.current_role ≠ none ∧
    try_assign_from_click mgrPendingSurgeon (some []) =
      { mgrPendingSurgeon with click_pending := false } :=
  ⟨rfl, by decide,
    (try_assign_empty_frame_consumes_click mgrPendingSurgeon rfl (by decide)).1⟩

/-- C5 counterexample: with a click pending and no role selected, a call
to `try_assign_from_click` leaves the pending-click flag set, so the
flag is not false after every call. -/
theorem try_assign_always_clears_flag_cex :
    (try_assign_from_click mgrClickNoRole (some [bodyA])).click_pending = true := by
  decide

/-- C5 (amended): after any call to `try_assign_from_click` in which no
click was pending or a role category was selected, the pending-click
flag is false, regardless of whether an assignment occurred; in the one
remaining case (click pending, no role selected) the call returns before
touching the flag. -/
theorem try_assign_clears_flag (m : RoleBindingManager) (bodies : Option (List Body))
    (h : m.click_pending = false ∨ m.current_role ≠ none) :
    (try_assign_from_click m bodies).click_pending = false := by
  unfold try_assign_from_click
  split
  · rename_i hc
    rcases hc with hc | hc
    · exact hc
    · rcases h with h | h
      · exact h
      · exact absurd hc h
  · split
    · rfl
    · rfl
    · split
      · rfl
      · rfl

/-- Witness for C5 (amended): Surgeon selected, click pending, one valid
body; the flag is cleared. -/
theorem try_assign_clears_flag_witness :
    (mgrPendingSurgeon.click_pending = false ∨ mgrPendingSurgeon.current_role ≠ none) ∧
    (try_assign_from_click mgrPendingSurgeon (some [bodyA])).click_pending = false :=
  ⟨Or.inr (by decide),
    try_assign_clears_flag mgrPendingSurgeon (some [bodyA]) (Or.inr (by decide))⟩

/-- The state part of one key press only updates the active role, by the
effect `keyRole` describes. -/
lemma set_key_current_role (m : RoleBindingManager) (k : ℕ) :
    (set_current_role_from_key m k).1.current_role = (keyRole k).getD m.current_role := by
  unfold set_current_role_from_key keyRole
  by_cases h1 : k = 115
  · simp [h1]
  · by_cases h2 : k = 97
    · simp [h1, h2]
    · by_cases h3 : k = 110
      · simp [h1, h2, h3]
      · by_cases h4 : k = 27
        · simp [h1, h2, h3, h4]
        · simp [h1, h2, h3, h4]

/-- After a sequence of key presses, the active role is the effect of
the last state-changing key, or the initial value if there is none. -/
lemma applyKeys_current_role (ks : List ℕ) : ∀ m : RoleBindingManager,
    (applyKeys m ks).current_role = (lastRoleEffect ks).getD m.current_role := by
  induction ks with
  | nil => intro m; rfl
  | cons k ks ih =>
    intro m
    have h1 : applyKeys m (k :: ks) = applyKeys (set_current_role_from_key m k).1 ks := rfl
    rw [h1, ih]
    unfold lastRoleEffect
    rw [List.reverse_cons, List.findSome?_append]
    cases hfs : ks.reverse.findSome? keyRole with
    | some e => simp [hfs, Option.or]
    | none =>
      have hk : List.findSome? keyRole [k] = keyRole k := by
        cases hkk : keyRole k <;> simp [List.findSome?, hkk]
      simp [hfs, Option.or, hk, set_key_current_role]

/-- C6: the key map is exactly s to Surgeon, a to Assistant, n to Nurse
and ESC to no role, each returning a non-empty status string, and those
four key codes are the only ones that do; any other key changes nothing
and returns no message; over any key sequence, the active role equals
the effect of the last state-changing key, or the initial value if there
is none. -/
theorem set_role_key_mapping (m : RoleBindingManager) (k : ℕ) (ks : List ℕ) :
    (set_current_role_from_key m 115).1 = { m with current_role := some "Surgeon" } ∧
    (set_current_role_from_key m 97).1 = { m with current_role := some "Assistant" } ∧
    (set_current_role_from_key m 110).1 = { m with current_role := some "Nurse" } ∧
    (set_current_role_from_key m 27).1 = { m with current_role := none } ∧
    ((∃ s, (set_current_role_from_key m k).2 = some s ∧ s ≠ "") ↔
      (k = 115 ∨ k = 97 ∨ k = 110 ∨ k = 27)) ∧
    (¬ (k = 115 ∨ k = 97 ∨ k = 110 ∨ k = 27) →
      set_current_role_from_key m k = (m, none)) ∧
    (applyKeys m ks).current_role = (lastRoleEffect ks).getD m.current_role := by
  refine ⟨rfl, rfl, rfl, rfl, ?_, ?_, applyKeys_current_role ks m⟩
  · constructor
    · rintro ⟨s, hs, hne⟩
      by_contra hk
      push_neg at hk
      obtain ⟨h1, h2, h3, h4⟩ := hk
      simp [set_current_role_from_key, h1, h2, h3, h4] at hs
    · rintro (h | h | h | h) <;> subst h
      · exact ⟨_, rfl, by decide⟩
      · exact ⟨_, rfl, by decide⟩
      · exact ⟨_, rfl, by decide⟩
      · exact ⟨_, rfl, by decide⟩
  · intro hk
    push_neg at hk
    obtain ⟨h1, h2, h3, h4⟩ := hk
    simp [set_current_role_from_key, h1, h2, h3, h4]

/-- Witness for C6: the sequence s, ESC, a ends with the Assistant role
active, and the unrecognised key code 113 changes nothing. -/
theorem set_role_key_mapping_witness :
    (applyKeys (RoleBindingManager.init scale1) [115, 27, 97]).current_role
      = some "Assistant" ∧
    set_current_role_from_key (RoleBindingManager.init scale1) 113
      = (RoleBindingManager.init scale1, none) := by
  have h := set_role_key_mapping (RoleBindingManager.init scale1) 113 [115, 27, 97]
  exact ⟨by rw [h.2.2.2.2.2.2]; decide, h.2.2.2.2.2.1 (by decide)⟩

/-- A body is skipped by the loop exactly when it is invalid in the
`invalidBody` sense. -/
lemma bodyDist2_none_iff (sc : Dyadic × Dyadic) (cp : ℤ × ℤ) (b : Body) :
    bodyDist2 sc cp b = none ↔ invalidBody b := by
  unfold bodyDist2 invalidBody
  cases hk : b.keypoint_2d with
  | none => simp
  | some l =>
    cases l with
    | nil => simp
    | cons kp rest =>
      obtain ⟨k1, k2⟩ := kp
      cases k1 <;> cases k2 <;> simp

/-- If every body of the list is skipped, the loop leaves the
accumulator unchanged. -/
lemma foldl_scan_all_invalid (sc : Dyadic × Dyadic) (cp : ℤ × ℤ) :
    ∀ (bl : List Body) (acc : Option (Body × ℤ)),
      (∀ b ∈ bl, bodyDist2 sc cp b = none) →
      bl.foldl (scanStep sc cp) acc = acc := by
  intro bl
  induction bl with
  | nil => intro acc _; rfl
  | cons x xs ih =>
    intro acc h
    rw [List.foldl_cons]
    have hx : bodyDist2 sc cp x = none := h x (by simp)
    have hs : scanStep sc cp acc x = acc := by simp [scanStep, hx]
    rw [hs]
    exact ih acc (fun b hb => h b (by simp [hb]))

/-- The loop's result distance is a lower bound: it is at most the
distance of the incoming accumulator and of every valid body of the
list. -/
lemma foldl_scan_le (sc : Dyadic × Dyadic) (cp : ℤ × ℤ) :
    ∀ (bl : List Body) (acc : Option (Body × ℤ)) (b : Body) (d : ℤ),
      bl.foldl (scanStep sc cp) acc = some (b, d) →
      (∀ a da, acc = some (a, da) → d ≤ da) ∧
      (∀ b' ∈ bl, ∀ d', bodyDist2 sc cp b' = some d' → d ≤ d') := by
  intro bl
  induction bl with
  | nil =>
    intro acc b d h
    simp only [List.foldl_nil] at h
    refine ⟨?_, by simp⟩
    intro a da hacc
    rw [hacc] at h
    simp only [Option.some.injEq, Prod.mk.injEq] at h
    omega
  | cons x xs ih =>
    intro acc b d h
    rw [List.foldl_cons] at h
    obtain ⟨IH1, IH2⟩ := ih (scanStep sc cp acc x) b d h
    cases hx : bodyDist2 sc cp x with
    | none =>
      have hs : scanStep sc cp acc x = acc := by simp [scanStep, hx]
      rw [hs] at IH1
      refine ⟨IH1, ?_⟩
      intro b' hb' d' hd'
      rcases List.mem_cons.mp hb' with rfl | hb'
      · rw [hx] at hd'; exact Option.noConfusion hd'
      · exact IH2 b' hb' d' hd'
    | some dx =>
      cases hacc : acc with
      | none =>
        have hs : scanStep sc cp acc x = some (x, dx) := by
          simp [scanStep, hx, hacc]
        rw [hs] at IH1
        have hdx : d ≤ dx := IH1 x dx rfl
        refine ⟨?_, ?_⟩
        · intro a da ha; exact Option.noConfusion ha
        · intro b' hb' d' hd'
          rcases List.mem_cons.mp hb' with rfl | hb'
          · rw [hx] at hd'
            simp only [Option.some.injEq] at hd'
            omega
          · exact IH2 b' hb' d' hd'
      | some p =>
        obtain ⟨a0, d0⟩ := p
        by_cases hlt : dx < d0
        · have hs : scanStep sc cp acc x = some (x, dx) := by
            simp [scanStep, hx, hacc, hlt]
          rw [hs] at IH1
          have hdx : d ≤ dx := IH1 x dx rfl
          refine ⟨?_, ?_⟩
          · intro a da ha
            simp only [Option.some.injEq, Prod.mk.injEq] at ha
            omega
          · intro b' hb' d' hd'
            rcases List.mem_cons.mp hb' with rfl | hb'
            · rw [hx] at hd'
              simp only [Option.some.injEq] at hd'
              omega
            · exact IH2 b' hb' d' hd'
        · have hs : scanStep sc cp acc x = some (a0, d0) := by
            simp [scanStep, hx, hacc, hlt]
          rw [hs] at IH1
          have hd0 : d ≤ d0 := IH1 a0 d0 rfl
          refine ⟨?_, ?_⟩
          · intro a da ha
            simp only [Option.some.injEq, Prod.mk.injEq] at ha
            omega
          · intro b' hb' d' hd'
            rcases List.mem_cons.mp hb' with rfl | hb'
            · rw [hx] at hd'
              simp only [Option.some.injEq] at hd'
              omega
            · exact IH2 b' hb' d' hd'

/-- First-wins: the loop's winner either is the incoming accumulator or
occurs in the list with its computed distance, strictly beats the
incoming accumulator, and strictly beats every valid body encountered
before it. -/
lemma foldl_scan_first (sc : Dyadic × Dyadic) (cp : ℤ × ℤ) :
    ∀ (bl : List Body) (acc : Option (Body × ℤ)) (b : Body) (d : ℤ),
      bl.foldl (scanStep sc cp) acc = some (b, d) →
      acc = some (b, d) ∨
      ∃ l1 l2, bl = l1 ++ b :: l2 ∧ bodyDist2 sc cp b = some d ∧
        (∀ a da, acc = some (a, da) → d < da) ∧
        (∀ b' ∈ l1, ∀ d', bodyDist2 sc cp b' = some d' → d < d') := by
  intro bl
  induction bl with
  | nil =>
    intro acc b d h
    simp only [List.foldl_nil] at h
    exact Or.inl h
  | cons x xs ih =>
    intro acc b d h
    rw [List.foldl_cons] at h
    have IH := ih (scanStep sc cp acc x) b d h
    cases hx : bodyDist2 sc cp x with
    | none =>
      have hs : scanStep sc cp acc x = acc := by simp [scanStep, hx]
      rw [hs] at IH
      rcases IH with IH | ⟨l1, l2, hsplit, hbd, haccc, hl1⟩
      · exact Or.inl IH
      · refine Or.inr ⟨x :: l1, l2, by rw [hsplit]; rfl, hbd, haccc, ?_⟩
        intro b' hb' d' hd'
        rcases List.mem_cons.mp hb' with rfl | hb'
        · rw [hx] at hd'; exact Option.noConfusion hd'
        · exact hl1 b' hb' d' hd'
    | some dx =>
      cases hacc : acc with
      | none =>
        have hs : scanStep sc cp acc x = some (x, dx) := by
          simp [scanStep, hx, hacc]
        rw [hs] at IH
        rcases IH with IH | ⟨l1, l2, hsplit, hbd, haccc, hl1⟩
        · simp only [Option.some.injEq, Prod.mk.injEq] at IH
          obtain ⟨rfl, rfl⟩ := IH
          refine Or.inr ⟨[], xs, rfl, hx, ?_, by simp⟩
          intro a da ha; exact Option.noConfusion ha
        · have hdx : d < dx := haccc x dx rfl
          refine Or.inr ⟨x :: l1, l2, by rw [hsplit]; rfl, hbd, ?_, ?_⟩
          · intro a da ha; exact Option.noConfusion ha
          · intro b' hb' d' hd'
            rcases List.mem_cons.mp hb' with rfl | hb'
            · rw [hx] at hd'
              simp only [Option.some.injEq] at hd'
              omega
            · exact hl1 b' hb' d' hd'
      | some p =>
        obtain ⟨a0, d0⟩ := p
        by_cases hlt : dx < d0
        · have hs : scanStep sc cp acc x = some (x, dx) := by
            simp [scanStep, hx, hacc, hlt]
          rw [hs] at IH
          rcases IH with IH | ⟨l1, l2, hsplit, hbd, haccc, hl1⟩
          · simp only [Option.some.injEq, Prod.mk.injEq] at IH
            obtain ⟨rfl, rfl⟩ := IH
            refine Or.inr ⟨[], xs, rfl, hx, ?_, by simp⟩
            intro a da ha
            simp only [Option.some.injEq, Prod.mk.injEq] at ha
            omega
          · have hdx : d < dx := haccc x dx rfl
            refine Or.inr ⟨x :: l1, l2, by rw [hsplit]; rfl, hbd, ?_, ?_⟩
            · intro a da ha
              simp only [Option.some.injEq, Prod.mk.injEq] at ha
              omega
            · intro b' hb' d' hd'
              rcases List.mem_cons.mp hb' with rfl | hb'
              · rw [hx] at hd'
                simp only [Option.some.injEq] at hd'
                omega
              · exact hl1 b' hb' d' hd'
        · have hs : scanStep sc cp acc x = some (a0, d0) := by
            simp [scanStep, hx, hacc, hlt]
          rw [hs] at IH
          rcases IH with IH | ⟨l1, l2, hsplit, hbd, haccc, hl1⟩
          · exact Or.inl IH
          · have hd0 : d < d0 := haccc a0 d0 rfl
            refine Or.inr ⟨x :: l1, l2, by rw [hsplit]; rfl, hbd, ?_, ?_⟩
            · intro a da ha
              simp only [Option.some.injEq, Prod.mk.injEq] at ha
              omega
            · intro b' hb' d' hd'
              rcases List.mem_cons.mp hb' with rfl | hb'
              · rw [hx] at hd'
                simp only [Option.some.injEq] at hd'
                omega
              · exact hl1 b' hb' d' hd'

/-- `_generate_role_name` only ever touches the three counters. -/
lemma generate_role_name_fields (m : RoleBindingManager) :
    (generate_role_name m).1.role_map = m.role_map ∧
    (generate_role_name m).1.current_role = m.current_role ∧
    (generate_role_name m).1.click_pending = m.click_pending ∧
    (generate_role_name m).1.click_pos = m.click_pos ∧
    (generate_role_name m).1.image_scale = m.image_scale := by
  unfold generate_role_name
  split
  · exact ⟨rfl, rfl, rfl, rfl, rfl⟩
  · split
    · exact ⟨rfl, rfl, rfl, rfl, rfl⟩
    · split
      · exact ⟨rfl, rfl, rfl, rfl, rfl⟩
      · exact ⟨rfl, rfl, rfl, rfl, rfl⟩

/-- Unfolding of `try_assign_from_click` on a non-empty frame when the
loop found a winner. -/
lemma try_assign_assigning (m : RoleBindingManager) (x : Body) (xs : List Body)
    (hp : m.click_pending = true) (hr : m.current_role ≠ none)
    (b : Body) (d : ℤ)
    (hbest : chosenBody m.image_scale m.click_pos (x :: xs) = some (b, d)) :
    try_assign_from_click m (some (x :: xs)) =
      { (generate_role_name m).1 with
        role_map := mapInsert (generate_role_name m).1.role_map b.id
          (generate_role_name m).2,
        click_pending := false } := by
  have hcond : ¬ (m.click_pending = false ∨ m.current_role = none) := by
    rintro (h | h)
    · rw [hp] at h; exact Bool.noConfusion h
    · exact hr h
  unfold try_assign_from_click
  rw [if_neg hcond]
  split
  · rename_i heq
    exact absurd heq (by simp)
  · rename_i heq
    exact absurd heq (by simp)
  · rename_i bodies bl hne heq
    injection heq with heq2
    subst heq2
    split
    · rename_i bb dd heq2
      rw [hbest] at heq2
      simp only [Option.some.injEq, Prod.mk.injEq] at heq2
      obtain ⟨rfl, rfl⟩ := heq2
      rfl
    · rename_i heq2
      rw [hbest] at heq2
      exact Option.noConfusion heq2

/-- Unfolding of `try_assign_from_click` on a non-empty frame when every
body was skipped. -/
lemma try_assign_no_candidate (m : RoleBindingManager) (x : Body) (xs : List Body)
    (hp : m.click_pending = true) (hr : m.current_role ≠ none)
    (hnone : chosenBody m.image_scale m.click_pos (x :: xs) = none) :
    try_assign_from_click m (some (x :: xs)) = { m with click_pending := false } := by
  have hcond : ¬ (m.click_pending = false ∨ m.current_role = none) := by
    rintro (h | h)
    · rw [hp] at h; exact Bool.noConfusion h
    · exact hr h
  unfold try_assign_from_click
  rw [if_neg hcond]
  split
  · rename_i heq
    exact absurd heq (by simp)
  · rename_i heq
    exact absurd heq (by simp)
  · rename_i bodies bl hne heq
    injection heq with heq2
    subst heq2
    split
    · rename_i bb dd heq2
      rw [hnone] at heq2
      exact Option.noConfusion heq2
    · rfl

/-- C1: in an assigning call (click pending, role selected, winner
found), the chosen body carries the minimum squared Euclidean distance
from the click to its scaled, truncated first keypoint; every valid body
of the frame is at least that far; the bodies iterated before the winner
that are valid are strictly farther (ties resolve to the first body in
iteration order); and the winner's id is mapped to the freshly generated
label. -/
theorem try_assign_picks_nearest (m : RoleBindingManager) (bl : List Body) (r : String)
    (hp : m.click_pending = true) (hr : m.current_role = some r)
    (b : Body) (d : ℤ)
    (hbest : chosenBody m.image_scale m.click_pos bl = some (b, d)) :
    bodyDist2 m.image_scale m.click_pos b = some d ∧
    (∀ b' ∈ bl, ∀ d', bodyDist2 m.image_scale m.click_pos b' = some d' → d ≤ d') ∧
    (∃ l1 l2, bl = l1 ++ b :: l2 ∧
      ∀ b' ∈ l1, ∀ d', bodyDist2 m.image_scale m.click_pos b' = some d' → d < d') ∧
    (try_assign_from_click m (some bl)).role_map =
      mapInsert m.role_map b.id (generate_role_name m).2 := by
  have hrne : m.current_role ≠ none := by rw [hr]; exact Option.noConfusion
  obtain ⟨_, hle⟩ := foldl_scan_le m.image_scale m.click_pos bl none b d hbest
  have hfirst := foldl_scan_first m.image_scale m.click_pos bl none b d hbest
  rcases hfirst with h | ⟨l1, l2, hsplit, hbd, _, hl1⟩
  · exact Option.noConfusion h
  refine ⟨hbd, hle, ⟨l1, l2, hsplit, hl1⟩, ?_⟩
  cases bl with
  | nil => simp at hsplit
  | cons x xs =>
    rw [try_assign_assigning m x xs hp hrne b d hbest]
    show mapInsert (generate_role_name m).1.role_map b.id (generate_role_name m).2
      = mapInsert m.role_map b.id (generate_role_name m).2
    rw [(generate_role_name_fields m).1]

/-- Witness for C1: click at (110, 110), bodies at (500, 500) and
(100, 100) in that order; the second body wins with squared distance
200 and its id is bound to the fresh label. -/
theorem try_assign_picks_nearest_witness :
    chosenBody mgrPendingSurgeon.image_scale mgrPendingSurgeon.click_pos [bodyB, bodyA]
      = some (bodyA, 200) ∧
    (try_assign_from_click mgrPendingSurgeon (some [bodyB, bodyA])).role_map =
      mapInsert mgrPendingSurgeon.role_map bodyA.id
        (generate_role_name mgrPendingSurgeon).2 :=
  ⟨by decide,
    (try_assign_picks_nearest mgrPendingSurgeon [bodyB, bodyA] "Surgeon" rfl rfl
      bodyA 200 (by decide)).2.2.2⟩

/-- C8: a body whose keypoint list is absent or empty, or whose first
keypoint has a NaN coordinate, is never the selected body; and when
every body of the frame is invalid in that sense, no binding is added or
changed and no counter moves. -/
theorem invalid_body_never_selected (m : RoleBindingManager) (bl : List Body) (bv : Body)
    (hmem : bv ∈ bl) (hinv : invalidBody bv) :
    (∀ d, chosenBody m.image_scale m.click_pos bl ≠ some (bv, d)) ∧
    ((∀ b ∈ bl, invalidBody b) →
      (try_assign_from_click m (some bl)).role_map = m.role_map ∧
      (try_assign_from_click m (some bl)).surgeon_count = m.surgeon_count ∧
      (try_assign_from_click m (some bl)).assistant_count = m.assistant_count ∧
      (try_assign_from_click m (some bl)).nurse_count = m.nurse_count) := by
  constructor
  · intro d hbest
    have hfirst := foldl_scan_first m.image_scale m.click_pos bl none bv d hbest
    rcases hfirst with h | ⟨l1, l2, hsplit, hbd, _, _⟩
    · exact Option.noConfusion h
    · rw [(bodyDist2_none_iff m.image_scale m.click_pos bv).mpr hinv] at hbd
      exact Option.noConfusion hbd
  · intro hall
    have hnone : chosenBody m.image_scale m.click_pos bl = none :=
      foldl_scan_all_invalid m.image_scale m.click_pos bl none
        (fun b hb => (bodyDist2_none_iff m.image_scale m.click_pos b).mpr (hall b hb))
    by_cases hc : m.click_pending = false ∨ m.current_role = none
    · have hid : try_assign_from_click m (some bl) = m := by
        unfold try_assign_from_click
        rw [if_pos hc]
      rw [hid]
      exact ⟨rfl, rfl, rfl, rfl⟩
    · push_neg at hc
      obtain ⟨hp', hr'⟩ := hc
      have hp : m.click_pending = true := by
        cases hcp : m.click_pending
        · exact absurd hcp hp'
        · rfl
      cases bl with
      | nil =>
        have hcond : ¬ (m.click_pending = false ∨ m.current_role = none) := by
          rintro (h | h)
          · exact hp' h
          · exact hr' h
        unfold try_assign_from_click
        rw [if_neg hcond]
        exact ⟨rfl, rfl, rfl, rfl⟩
      | cons x xs =>
        rw [try_assign_no_candidate m x xs hp hr' hnone]
        exact ⟨rfl, rfl, rfl, rfl⟩

/-- The fuel-based digit computation agrees with `Nat.digits 10` once
the fuel covers the number. -/
lemma natDigitsAux_eq_digits : ∀ (fuel n : ℕ), n ≤ fuel →
    natDigitsAux fuel n = Nat.digits 10 n := by
  intro fuel
  induction fuel with
  | zero =>
    intro n hn
    have : n = 0 := Nat.le_zero.mp hn
    subst this
    rw [Nat.digits_zero]
    rfl
  | succ fuel ih =>
    intro n hn
    cases n with
    | zero => rw [Nat.digits_zero]; rfl
    | succ k =>
      have hdef := Nat.digits_def' (b := 10) (by norm_num) (Nat.succ_pos k)
      rw [natDigitsAux, hdef]
      have hlt : (k + 1) / 10 < k + 1 := Nat.div_lt_self (Nat.succ_pos k) (by norm_num)
      rw [ih ((k + 1) / 10) (by omega)]

/-- `natDigits` agrees with `Nat.digits 10`. -/
lemma natDigits_eq_digits (n : ℕ) : natDigits n = Nat.digits 10 n :=
  natDigitsAux_eq_digits n n le_rfl

/-- `Nat.digitChar` is injective below 10. -/
lemma digitChar_inj (a b : ℕ) (ha : a < 10) (hb : b < 10)
    (h : Nat.digitChar a = Nat.digitChar b) : a = b := by
  have key : ∀ x y : Fin 10, Nat.digitChar x.val = Nat.digitChar y.val → x = y := by decide
  have := key ⟨a, ha⟩ ⟨b, hb⟩ h
  exact congrArg Fin.val this

/-- Mapping `Nat.digitChar` over lists of digits below 10 is injective. -/
lemma map_digitChar_inj : ∀ (l₁ l₂ : List ℕ), (∀ d ∈ l₁, d < 10) → (∀ d ∈ l₂, d < 10) →
    l₁.map Nat.digitChar = l₂.map Nat.digitChar → l₁ = l₂ := by
  intro l₁
  induction l₁ with
  | nil =>
    intro l₂ _ _ h
    cases l₂ with
    | nil => rfl
    | cons b t => simp at h
  | cons a t ih =>
    intro l₂ h₁ h₂ h
    cases l₂ with
    | nil => simp at h
    | cons b t₂ =>
      simp only [List.map_cons, List.cons.injEq] at h
      have hd : a = b :=
        digitChar_inj a b (h₁ a (by simp)) (h₂ b (by simp)) h.1
      have ht : t = t₂ :=
        ih t₂ (fun d hd2 => h₁ d (by simp [hd2])) (fun d hd2 => h₂ d (by simp [hd2])) h.2
      rw [hd, ht]

/-- `natStr` is injective on positive numbers. -/
lemma natStr_inj {a b : ℕ} (ha : a ≠ 0) (hb : b ≠ 0) (h : natStr a = natStr b) : a = b := by
  unfold natStr at h
  rw [if_neg ha, if_neg hb] at h
  have h2 : (((natDigits a).map Nat.digitChar).reverse : List Char)
      = ((natDigits b).map Nat.digitChar).reverse := congrArg String.data h
  have h3 := List.reverse_injective h2
  have h4 : natDigits a = natDigits b := by
    refine map_digitChar_inj _ _ ?_ ?_ h3
    · intro d hd
      rw [natDigits_eq_digits] at hd
      exact Nat.digits_lt_base (by norm_num) hd
    · intro d hd
      rw [natDigits_eq_digits] at hd
      exact Nat.digits_lt_base (by norm_num) hd
  rw [natDigits_eq_digits, natDigits_eq_digits] at h4
  exact Nat.digits_inj_iff.mp h4

/-- String append acts as list append on the character data. -/
lemma string_data_append (s t : String) : (s ++ t).data = s.data ++ t.data := rfl

/-- Strings with equal character data are equal. -/
lemma string_ext {s t : String} (h : s.data = t.data) : s = t := by
  cases s; cases t; exact congrArg String.mk h

/-- Two labels of the same category agree only when the numbers agree. -/
lemma label_same_cat_inj (c : String) (n₁ n₂ : ℕ) (h1 : n₁ ≠ 0) (h2 : n₂ ≠ 0)
    (h : c ++ "_" ++ natStr n₁ = c ++ "_" ++ natStr n₂) : n₁ = n₂ := by
  have hd := congrArg String.data h
  simp only [string_data_append] at hd
  have h3 := List.append_cancel_left hd
  exact natStr_inj h1 h2 (string_ext h3)

/-- A string starting with the given head character, once something is
appended, still starts with it. -/
lemma append_data_head (c : String) (ch : Char) (rest : List Char)
    (hc : c.data = ch :: rest) (t : String) : (c ++ t).data.head? = some ch := by
  rw [string_data_append, hc]; rfl

/-- Appends of strings with distinct head characters are distinct. -/
lemma label_cat_ne (c₁ c₂ t₁ t₂ : String) (ch₁ ch₂ : Char) (r₁ r₂ : List Char)
    (h₁ : c₁.data = ch₁ :: r₁) (h₂ : c₂.data = ch₂ :: r₂) (hne : ch₁ ≠ ch₂) :
    c₁ ++ t₁ ≠ c₂ ++ t₂ := by
  intro h
  have h5 : (c₁ ++ t₁).data.head? = (c₂ ++ t₂).data.head? := by rw [h]
  rw [append_data_head c₁ ch₁ r₁ h₁ t₁, append_data_head c₂ ch₂ r₂ h₂ t₂] at h5
  exact hne (Option.some.inj h5)

/-- Key handling never touches the counters. -/
lemma set_key_counts (m : RoleBindingManager) (k : ℕ) :
    (set_current_role_from_key m k).1.surgeon_count = m.surgeon_count ∧
    (set_current_role_from_key m k).1.assistant_count = m.assistant_count ∧
    (set_current_role_from_key m k).1.nurse_count = m.nurse_count := by
  unfold set_current_role_from_key
  split
  · exact ⟨rfl, rfl, rfl⟩
  · split
    · exact ⟨rfl, rfl, rfl⟩
    · split
      · exact ⟨rfl, rfl, rfl⟩
      · split
        · exact ⟨rfl, rfl, rfl⟩
        · exact ⟨rfl, rfl, rfl⟩

/-- `_generate_role_name` never decreases a counter. -/
lemma generate_counts_le (m : RoleBindingManager) :
    m.surgeon_count ≤ (generate_role_name m).1.surgeon_count ∧
    m.assistant_count ≤ (generate_role_name m).1.assistant_count ∧
    m.nurse_count ≤ (generate_role_name m).1.nurse_count := by
  unfold generate_role_name
  split
  · exact ⟨Nat.le_succ _, le_rfl, le_rfl⟩
  · split
    · exact ⟨le_rfl, Nat.le_succ _, le_rfl⟩
    · split
      · exact ⟨le_rfl, le_rfl, Nat.le_succ _⟩
      · exact ⟨le_rfl, le_rfl, le_rfl⟩

/-- `try_assign_from_click` never decreases a counter. -/
lemma try_assign_counts_le (m : RoleBindingManager) (bodies : Option (List Body)) :
    m.surgeon_count ≤ (try_assign_from_click m bodies).surgeon_count ∧
    m.assistant_count ≤ (try_assign_from_click m bodies).assistant_count ∧
    m.nurse_count ≤ (try_assign_from_click m bodies).nurse_count := by
  unfold try_assign_from_click
  split
  · exact ⟨le_rfl, le_rfl, le_rfl⟩
  · split
    · exact ⟨le_rfl, le_rfl, le_rfl⟩
    · exact ⟨le_rfl, le_rfl, le_rfl⟩
    · split
      · exact generate_counts_le m
      · exact ⟨le_rfl, le_rfl, le_rfl⟩

/-- A single event never decreases a counter. -/
lemma step_counts_le (m : RoleBindingManager) (op : Op) :
    m.surgeon_count ≤ (step m op).surgeon_count ∧
    m.assistant_count ≤ (step m op).assistant_count ∧
    m.nurse_count ≤ (step m op).nurse_count := by
  cases op with
  | key k =>
    obtain ⟨h1, h2, h3⟩ := set_key_counts m k
    exact ⟨le_of_eq h1.symm, le_of_eq h2.symm, le_of_eq h3.symm⟩
  | click x y => exact ⟨le_rfl, le_rfl, le_rfl⟩
  | frame bodies => exact try_assign_counts_le m bodies

/-- No event sequence ever decreases a counter. -/
lemma run_counts_le (ops : List Op) : ∀ m : RoleBindingManager,
    m.surgeon_count ≤ (run m ops).surgeon_count ∧
    m.assistant_count ≤ (run m ops).assistant_count ∧
    m.nurse_count ≤ (run m ops).nurse_count := by
  induction ops with
  | nil => intro m; exact ⟨le_rfl, le_rfl, le_rfl⟩
  | cons op ops ih =>
    intro m
    obtain ⟨s1, a1, n1⟩ := step_counts_le m op
    obtain ⟨s2, a2, n2⟩ := ih (step m op)
    exact ⟨le_trans s1 s2, le_trans a1 a2, le_trans n1 n2⟩

/-- No event sequence ever decreases any category counter. -/
lemma run_counterOf_le (m : RoleBindingManager) (ops : List Op) (c : String) :
    counterOf m c ≤ counterOf (run m ops) c := by
  obtain ⟨hs, ha, hn⟩ := run_counts_le ops m
  by_cases h1 : c = "Surgeon"
  · simp [counterOf, h1, hs]
  · by_cases h2 : c = "Assistant"
    · simp [counterOf, h1, h2, ha]
    · by_cases h3 : c = "Nurse"
      · simp [counterOf, h1, h2, h3, hn]
      · simp [counterOf, h1, h2, h3]

/-- `_generate_role_name` at a category: the label format, the bump of
exactly that category's counter, and preservation of the others. -/
lemma generate_at_cat (m : RoleBindingManager) (c : String)
    (hc : c = "Surgeon" ∨ c = "Assistant" ∨ c = "Nurse")
    (hr : m.current_role = some c) :
    (generate_role_name m).2 = c ++ "_" ++ natStr (counterOf m c + 1) ∧
    counterOf (generate_role_name m).1 c = counterOf m c + 1 ∧
    (∀ c2, c2 ≠ c → counterOf (generate_role_name m).1 c2 = counterOf m c2) := by
  rcases hc with rfl | rfl | rfl
  · refine ⟨by simp [generate_role_name, hr, counterOf], by simp [generate_role_name, hr, counterOf], ?_⟩
    intro c2 hne
    simp [generate_role_name, hr, counterOf, hne]
  · refine ⟨by simp [generate_role_name, hr, counterOf], by simp [generate_role_name, hr, counterOf], ?_⟩
    intro c2 hne
    simp [generate_role_name, hr, counterOf, hne]
  · refine ⟨by simp [generate_role_name, hr, counterOf], by simp [generate_role_name, hr, counterOf], ?_⟩
    intro c2 hne
    simp [generate_role_name, hr, counterOf, hne]

/-- C2: a successful label generation bumps exactly its category's
counter by 1 and returns that category's name followed by an underscore
and the post-increment counter; every category counter is non-decreasing
under any sequence of manager operations; and a later successful
generation (after any sequence of operations) never returns the same
label again. -/
theorem generate_label_spec (m : RoleBindingManager) (c : String)
    (hc : c = "Surgeon" ∨ c = "Assistant" ∨ c = "Nurse")
    (hr : m.current_role = some c) (ops : List Op) :
    (generate_role_name m).2 = c ++ "_" ++ natStr (counterOf m c + 1) ∧
    counterOf (generate_role_name m).1 c = counterOf m c + 1 ∧
    (∀ c2, c2 ≠ c → counterOf (generate_role_name m).1 c2 = counterOf m c2) ∧
    (∀ c2, counterOf m c2 ≤ counterOf (run m ops) c2) ∧
    (∀ c2, (c2 = "Surgeon" ∨ c2 = "Assistant" ∨ c2 = "Nurse") →
      (run (generate_role_name m).1 ops).current_role = some c2 →
      (generate_role_name (run (generate_role_name m).1 ops)).2 ≠
        (generate_role_name m).2) := by
  obtain ⟨hl1, hbump, hothers⟩ := generate_at_cat m c hc hr
  refine ⟨hl1, hbump, hothers, fun c2 => run_counterOf_le m ops c2, ?_⟩
  intro c2 hc2 hr2 heq
  obtain ⟨hl2, _, _⟩ := generate_at_cat (run (generate_role_name m).1 ops) c2 hc2 hr2
  rw [hl1, hl2] at heq
  by_cases hcc : c2 = c
  · subst hcc
    have hmono := run_counterOf_le (generate_role_name m).1 ops c2
    rw [hbump] at hmono
    have hnum := label_same_cat_inj c2 _ _ (Nat.succ_ne_zero _) (Nat.succ_ne_zero _) heq
    omega
  · rcases hc2 with rfl | rfl | rfl <;> rcases hc with rfl | rfl | rfl
    · exact hcc rfl
    · exact label_cat_ne ("Surgeon" ++ "_") ("Assistant" ++ "_") _ _ 'S' 'A'
        "urgeon_".data "ssistant_".data rfl rfl (by decide) heq
    · exact label_cat_ne ("Surgeon" ++ "_") ("Nurse" ++ "_") _ _ 'S' 'N'
        "urgeon_".data "urse_".data rfl rfl (by decide) heq
    · exact label_cat_ne ("Assistant" ++ "_") ("Surgeon" ++ "_") _ _ 'A' 'S'
        "ssistant_".data "urgeon_".data rfl rfl (by decide) heq
    · exact hcc rfl
    · exact label_cat_ne ("Assistant" ++ "_") ("Nurse" ++ "_") _ _ 'A' 'N'
        "ssistant_".data "urse_".data rfl rfl (by decide) heq
    · exact label_cat_ne ("Nurse" ++ "_") ("Surgeon" ++ "_") _ _ 'N' 'S'
        "urse_".data "urgeon_".data rfl rfl (by decide) heq
    · exact label_cat_ne ("Nurse" ++ "_") ("Assistant" ++ "_") _ _ 'N' 'A'
        "urse_".data "ssistant_".data rfl rfl (by decide) heq
    · exact hcc rfl

/-- Witness for C2: with Surgeon selected and a fresh counter, the first
generated label is Surgeon_1, and an immediately repeated generation
returns a different label. -/
theorem generate_label_spec_witness :
    mgrPendingSurgeon.current_role = some "Surgeon" ∧
    (generate_role_name mgrPendingSurgeon).2 = "Surgeon" ++ "_" ++ natStr 1 ∧
    (generate_role_name (run (generate_role_name mgrPendingSurgeon).1 [])).2 ≠
      (generate_role_name mgrPendingSurgeon).2 := by
  have h := generate_label_spec mgrPendingSurgeon "Surgeon" (Or.inl rfl) rfl []
  exact ⟨rfl, by rw [h.1]; rfl, h.2.2.2.2 "Surgeon" (Or.inl rfl) rfl⟩

/-- Unfolding of the main-loop click block on a non-empty frame when the
loop found a winner. -/
lemma mainClickBlock_assigning (m : RoleBindingManager) (x : Body) (xs : List Body)
    (hp : m.click_pending = true) (hr : m.current_role ≠ none)
    (bb : Body) (dd : ℤ)
    (hcb : chosenBody m.image_scale m.click_pos (x :: xs) = some (bb, dd)) :
    mainClickBlock m (x :: xs) =
      if m.current_role = some "Surgeon" then
        { m with
          surgeon_count := m.surgeon_count + 1,
          role_map := mapInsert m.role_map bb.id
            ("Surgeon" ++ "_" ++ natStr (m.surgeon_count + 1)),
          click_pending := false }
      else if m.current_role = some "Assistant" then
        { m with
          assistant_count := m.assistant_count + 1,
          role_map := mapInsert m.role_map bb.id
            ("Assistant" ++ "_" ++ natStr (m.assistant_count + 1)),
          click_pending := false }
      else if m.current_role = some "Nurse" then
        { m with
          nurse_count := m.nurse_count + 1,
          role_map := mapInsert m.role_map bb.id
            ("Nurse" ++ "_" ++ natStr (m.nurse_count + 1)),
          click_pending := false }
      else
        { m with
          role_map := mapInsert m.role_map bb.id
            (match m.current_role with
             | some s => s
             | none => "Unknown"),
          click_pending := false } := by
  unfold mainClickBlock
  rw [if_pos ⟨hp, hr, by simp⟩]
  split
  · rename_i bb2 dd2 heq
    rw [hcb] at heq
    simp only [Option.some.injEq, Prod.mk.injEq] at heq
    obtain ⟨rfl, rfl⟩ := heq
    rfl
  · rename_i heq
    rw [hcb] at heq
    exact Option.noConfusion heq

/-- Unfolding of the main-loop click block on a non-empty frame when
every body was skipped. -/
lemma mainClickBlock_no_candidate (m : RoleBindingManager) (x : Body) (xs : List Body)
    (hp : m.click_pending = true) (hr : m.current_role ≠ none)
    (hnone : chosenBody m.image_scale m.click_pos (x :: xs) = none) :
    mainClickBlock m (x :: xs) = { m with click_pending := false } := by
  unfold mainClickBlock
  rw [if_pos ⟨hp, hr, by simp⟩]
  split
  · rename_i bb2 dd2 heq
    rw [hnone] at heq
    exact Option.noConfusion heq
  · rfl

/-- C9 counterexample: with a click pending, the Surgeon role selected
and an empty body list, the inline main-loop block leaves the click
pending while `try_assign_from_click` consumes it, so from equal states
the two produce different states. -/
theorem main_block_equiv_cex :
    (mainClickBlock mgrPendingSurgeon []).click_pending = true ∧
    (try_assign_from_click mgrPendingSurgeon (some [])).click_pending = false ∧
    mainClickBlock mgrPendingSurgeon [] ≠
      try_assign_from_click mgrPendingSurgeon (some []) :=
  ⟨by decide, by decide, by decide⟩

/-- C9 (amended): the inline click-assignment block of the main loop and
`try_assign_from_click` agree from every common state and body list
except exactly when a click is pending, a role is selected, and the
body list is empty (there the inline block keeps the click pending while
the method consumes it), and provided the current role is not the empty
string (there the two fallback label computations differ). -/
theorem main_block_refines_try_assign (m : RoleBindingManager) (bl : List Body)
    (hq : m.current_role ≠ some "")
    (hne : ¬ (m.click_pending = true ∧ m.current_role ≠ none ∧ bl = [])) :
    mainClickBlock m bl = try_assign_from_click m (some bl) := by
  by_cases hp : m.click_pending = true
  · by_cases hr : m.current_role = none
    · unfold mainClickBlock try_assign_from_click
      rw [if_neg (fun hand => hand.2.1 hr), if_pos (Or.inr hr)]
    · have hblne : bl ≠ [] := fun hbl => hne ⟨hp, hr, hbl⟩
      cases bl with
      | nil => exact absurd rfl hblne
      | cons x xs =>
        cases hcb : chosenBody m.image_scale m.click_pos (x :: xs) with
        | none =>
          rw [mainClickBlock_no_candidate m x xs hp hr hcb,
            try_assign_no_candidate m x xs hp hr hcb]
        | some p =>
          obtain ⟨bb, dd⟩ := p
          rw [mainClickBlock_assigning m x xs hp hr bb dd hcb,
            try_assign_assigning m x xs hp hr bb dd hcb]
          by_cases h1 : m.current_role = some "Surgeon"
          · rw [if_pos h1]
            unfold generate_role_name
            rw [if_pos h1]
          · rw [if_neg h1]
            by_cases h2 : m.current_role = some "Assistant"
            · rw [if_pos h2]
              unfold generate_role_name
              rw [if_neg h1, if_pos h2]
            · rw [if_neg h2]
              by_cases h3 : m.current_role = some "Nurse"
              · rw [if_pos h3]
                unfold generate_role_name
                rw [if_neg h1, if_neg h2, if_pos h3]
              · rw [if_neg h3]
                unfold generate_role_name
                rw [if_neg h1, if_neg h2, if_neg h3]
                rcases hcr : m.current_role with _ | s
                · exact absurd hcr hr
                · have hs : s ≠ "" := fun he => hq (by rw [hcr, he])
                  simp [hs]
                  exact hcr.symm
  · have hpf : m.click_pending = false := by
      cases hcp : m.click_pending
      · rfl
      · exact absurd hcp hp
    unfold mainClickBlock try_assign_from_click
    rw [if_neg (fun hand => hp hand.1), if_pos (Or.inl hpf)]

/-- Witness for C9 (amended): Surgeon selected, click pending, two valid
bodies; the inline block and the method produce the same state. -/
theorem main_block_refines_try_assign_witness :
    mgrPendingSurgeon.current_role ≠ some "" ∧
    ¬ (mgrPendingSurgeon.click_pending = true ∧
        mgrPendingSurgeon.current_role ≠ none ∧ ([bodyB, bodyA] : List Body) = []) ∧
    mainClickBlock mgrPendingSurgeon [bodyB, bodyA] =
      try_assign_from_click mgrPendingSurgeon (some [bodyB, bodyA]) :=
  ⟨by decide, by decide,
    main_block_refines_try_assign mgrPendingSurgeon [bodyB, bodyA]
      (by decide) (by decide)⟩

/-- `keyRole` only ever produces no effect, cancellation, or one of the
three category roles. -/
lemma keyRole_allowed (k : ℕ) :
    keyRole k = none ∨ keyRole k = some none ∨
    keyRole k = some (some "Surgeon") ∨ keyRole k = some (some "Assistant") ∨
    keyRole k = some (some "Nurse") := by
  unfold keyRole
  split
  · right; right; left; rfl
  · split
    · right; right; right; left; rfl
    · split
      · right; right; right; right; rfl
      · split
        · right; left; rfl
        · left; rfl

/-- `try_assign_from_click` never changes the active role. -/
lemma try_assign_current_role (m : RoleBindingManager) (bodies : Option (List Body)) :
    (try_assign_from_click m bodies).current_role = m.current_role := by
  unfold try_assign_from_click
  split
  · rfl
  · split
    · rfl
    · rfl
    · split
      · exact (generate_role_name_fields m).2.1
      · rfl

/-- One event keeps the active role in the set consisting of no role and
the three categories. -/
lemma step_role_invariant (m : RoleBindingManager) (op : Op)
    (h : m.current_role = none ∨ m.current_role = some "Surgeon" ∨
      m.current_role = some "Assistant" ∨ m.current_role = some "Nurse") :
    (step m op).current_role = none ∨ (step m op).current_role = some "Surgeon" ∨
    (step m op).current_role = some "Assistant" ∨
    (step m op).current_role = some "Nurse" := by
  cases op with
  | key k =>
    have hk : (step m (Op.key k)).current_role = (keyRole k).getD m.current_role :=
      set_key_current_role m k
    rcases keyRole_allowed k with he | he | he | he | he <;> rw [hk, he]
    · exact h
    · left; rfl
    · right; left; rfl
    · right; right; left; rfl
    · right; right; right; rfl
  | click x y => exact h
  | frame bodies =>
    have hk : (step m (Op.frame bodies)).current_role = m.current_role :=
      try_assign_current_role m bodies
    rw [hk]; exact h

/-- Any event sequence keeps the active role in the allowed set. -/
lemma run_role_invariant (ops : List Op) : ∀ m : RoleBindingManager,
    (m.current_role = none ∨ m.current_role = some "Surgeon" ∨
      m.current_role = some "Assistant" ∨ m.current_role = some "Nurse") →
    ((run m ops).current_role = none ∨ (run m ops).current_role = some "Surgeon" ∨
     (run m ops).current_role = some "Assistant" ∨
     (run m ops).current_role = some "Nurse") := by
  induction ops with
  | nil => intro m h; exact h
  | cons op ops ih =>
    intro m h
    exact ih (step m op) (step_role_invariant m op h)

/-- C10: from a freshly constructed manager, after any event sequence,
the active role is always none or one of exactly Surgeon, Assistant and
Nurse; consequently, whenever `try_assign_from_click` reaches a
successful assignment, `_generate_role_name` takes a category branch
(never the fallback) and exactly one counter is incremented by 1. -/
theorem reachable_role_always_valid (scale : Dyadic × Dyadic) (ops : List Op)
    (bl : List Body) (b : Body) (d : ℤ) :
    ((run (RoleBindingManager.init scale) ops).current_role = none ∨
     (run (RoleBindingManager.init scale) ops).current_role = some "Surgeon" ∨
     (run (RoleBindingManager.init scale) ops).current_role = some "Assistant" ∨
     (run (RoleBindingManager.init scale) ops).current_role = some "Nurse") ∧
    ((run (RoleBindingManager.init scale) ops).click_pending = true →
     (run (RoleBindingManager.init scale) ops).current_role ≠ none →
     chosenBody (run (RoleBindingManager.init scale) ops).image_scale
        (run (RoleBindingManager.init scale) ops).click_pos bl = some (b, d) →
     ((run (RoleBindingManager.init scale) ops).current_role = some "Surgeon" ∨
      (run (RoleBindingManager.init scale) ops).current_role = some "Assistant" ∨
      (run (RoleBindingManager.init scale) ops).current_role = some "Nurse") ∧
     (((try_assign_from_click (run (RoleBindingManager.init scale) ops)
          (some bl)).surgeon_count
          = (run (RoleBindingManager.init scale) ops).surgeon_count + 1 ∧
       (try_assign_from_click (run (RoleBindingManager.init scale) ops)
          (some bl)).assistant_count
          = (run (RoleBindingManager.init scale) ops).assistant_count ∧
       (try_assign_from_click (run (RoleBindingManager.init scale) ops)
          (some bl)).nurse_count
          = (run (RoleBindingManager.init scale) ops).nurse_count) ∨
      ((try_assign_from_click (run (RoleBindingManager.init scale) ops)
          (some bl)).surgeon_count
          = (run (RoleBindingManager.init scale) ops).surgeon_count ∧
       (try_assign_from_click (run (RoleBindingManager.init scale) ops)
          (some bl)).assistant_count
          = (run (RoleBindingManager.init scale) ops).assistant_count + 1 ∧
       (try_assign_from_click (run (RoleBindingManager.init scale) ops)
          (some bl)).nurse_count
          = (run (RoleBindingManager.init scale) ops).nurse_count) ∨
      ((try_assign_from_click (run (RoleBindingManager.init scale) ops)
          (some bl)).surgeon_count
          = (run (RoleBindingManager.init scale) ops).surgeon_count ∧
       (try_assign_from_click (run (RoleBindingManager.init scale) ops)
          (some bl)).assistant_count
          = (run (RoleBindingManager.init scale) ops).assistant_count ∧
       (try_assign_from_click (run (RoleBindingManager.init scale) ops)
          (some bl)).nurse_count
          = (run (RoleBindingManager.init scale) ops).nurse_count + 1))) := by
  have hinv := run_role_invariant ops (RoleBindingManager.init scale) (Or.inl rfl)
  refine ⟨hinv, ?_⟩
  intro hp hr hbest
  have hthree : (run (RoleBindingManager.init scale) ops).current_role = some "Surgeon" ∨
      (run (RoleBindingManager.init scale) ops).current_role = some "Assistant" ∨
      (run (RoleBindingManager.init scale) ops).current_role = some "Nurse" := by
    rcases hinv with h | h | h | h
    · exact absurd h hr
    · exact Or.inl h
    · exact Or.inr (Or.inl h)
    · exact Or.inr (Or.inr h)
  refine ⟨hthree, ?_⟩
  cases bl with
  | nil => exact Option.noConfusion hbest
  | cons x xs =>
    rw [try_assign_assigning (run (RoleBindingManager.init scale) ops) x xs hp hr b d hbest]
    rcases hthree with h | h | h
    · left
      unfold generate_role_name
      rw [if_pos h]
      exact ⟨rfl, rfl, rfl⟩
    · right; left
      have hne1 : (run (RoleBindingManager.init scale) ops).current_role ≠ some "Surgeon" := by
        rw [h]; decide
      unfold generate_role_name
      rw [if_neg hne1, if_pos h]
      exact ⟨rfl, rfl, rfl⟩
    · right; right
      have hne1 : (run (RoleBindingManager.init scale) ops).current_role ≠ some "Surgeon" := by
        rw [h]; decide
      have hne2 : (run (RoleBindingManager.init scale) ops).current_role
          ≠ some "Assistant" := by
        rw [h]; decide
      unfold generate_role_name
      rw [if_neg hne1, if_neg hne2, if_pos h]
      exact ⟨rfl, rfl, rfl⟩

/-- Witness for C10: after pressing s and clicking at (110, 110), the
role is Surgeon, and resolving the click against one valid body bumps
exactly the Surgeon counter. -/
theorem reachable_role_always_valid_witness :
    (run (RoleBindingManager.init scale1) [Op.key 115, Op.click 110 110]).current_role
      = some "Surgeon" ∧
    (try_assign_from_click
        (run (RoleBindingManager.init scale1) [Op.key 115, Op.click 110 110])
        (some [bodyA])).surgeon_count
      = (run (RoleBindingManager.init scale1) [Op.key 115, Op.click 110 110]).surgeon_count
        + 1 := by
  have h := reachable_role_always_valid scale1 [Op.key 115, Op.click 110 110]
    [bodyA] bodyA 200
  have h2 := h.2 (by decide) (by decide) (by decide)
  refine ⟨by decide, ?_⟩
  rcases h2.2 with hh | hh | hh
  · exact hh.1
  · exact absurd hh.2.1 (by decide)
  · exact absurd hh.2.2 (by decide)

/-- Witness for C8: a frame of three invalid bodies (NaN keypoint, empty
keypoint list, absent keypoint list): the NaN body is never selected and
the call changes no binding. -/
theorem invalid_body_never_selected_witness :
    bodyNan ∈ ([bodyNan, bodyEmptyKp, bodyNoKp] : List Body) ∧
    invalidBody bodyNan ∧
    (∀ d, chosenBody mgrPendingSurgeon.image_scale mgrPendingSurgeon.click_pos
        [bodyNan, bodyEmptyKp, bodyNoKp] ≠ some (bodyNan, d)) ∧
    (try_assign_from_click mgrPendingSurgeon
        (some [bodyNan, bodyEmptyKp, bodyNoKp])).role_map
      = mgrPendingSurgeon.role_map := by
  have hinv : invalidBody bodyNan :=
    Or.inr (Or.inr ⟨(FVal.nan, FVal.val ⟨0, 0⟩), [], rfl, Or.inl rfl⟩)
  have h := invalid_body_never_selected mgrPendingSurgeon
    [bodyNan, bodyEmptyKp, bodyNoKp] bodyNan (List.mem_cons_self _ _) hinv
  refine ⟨List.mem_cons_self _ _, hinv, h.1, ?_⟩
  refine (h.2 ?_).1
  intro b hb
  simp only [List.mem_cons, List.not_mem_nil, or_false] at hb
  rcases hb with rfl | rfl | rfl
  · exact hinv
  · exact Or.inr (Or.inl rfl)
  · exact Or.inl rfl
